import Mathlib

/-
  Verification of the tracepoint subsystem of gdb (src/gdb/tracepoint.c).

  The development shallowly embeds the collection-list machinery
  (memranges, register bitmap, sort/merge, wire stringification), the
  tracepoint registry, the action-line validator, the trace-frame cursor
  and the QTDP packet assembly of trace_start_command, and proves or
  refutes the stated properties about them.

  Modelling conventions:
  * C strings are `List Char`; the NUL terminator is implicit except where
    the code's pointer walk past it matters (set_raw_tracepoint).
  * `bfd_signed_vma` / `CORE_ADDR` values are mathematical `Int`s; where the
    code reinterprets them as unsigned (`(bfd_vma)` casts, `%X` formatting)
    we reduce modulo 2^32, the width of a 1997-era 32-bit vma.
  * `error (...)` calls are `Except Unit` errors.
  * External collaborators (symbol table, expression parser) appear as
    explicit oracle parameters.
-/

deriving instance DecidableEq for Except

/-- C `isspace` on the characters that can occur in command lines. -/
def is_space (c : Char) : Bool :=
  c = ' ' || c = '\t' || c = '\n' || c = '\x0b' || c = '\x0c' || c = '\r'

/-- One hex digit, uppercase, as emitted by `sprintf "%X"` / `"%02X"`. -/
def hex_digit (d : Nat) : Char :=
  if d < 10 then Char.ofNat (48 + d) else Char.ofNat (55 + d)

/-- Digits of `n` in base 16, most significant first, accumulator form.
The first argument is fuel bounding the digit count (structural recursion);
any fuel `≥ n` is enough, since `n / 16 < n` for `n ≠ 0`. -/
def nat_hex_core : Nat → Nat → List Char → List Char
  | 0, _, acc => acc
  | fuel + 1, n, acc =>
    if n = 0 then acc else nat_hex_core fuel (n / 16) (hex_digit (n % 16) :: acc)

/-- `sprintf "%X"`: minimal-width uppercase hex, `0` prints as `"0"`. -/
def nat_hex (n : Nat) : List Char :=
  if n = 0 then ['0'] else nat_hex_core n n []

/-- `sprintf "%02X"`: at least two uppercase hex digits. -/
def hex2 (n : Nat) : List Char :=
  if n < 16 then '0' :: nat_hex n else nat_hex n

/-- Reinterpret a signed 32-bit value as unsigned: the `(bfd_vma)` cast and
the value `%X` formats. `Int.emod` with a positive modulus is non-negative. -/
def vma_unsigned (x : Int) : Int := x % 4294967296

/-- `sprintf "%X"` applied to a (possibly negative) 32-bit value. -/
def hex_vma (x : Int) : List Char := nat_hex (vma_unsigned x).toNat

/-- struct memrange: `type = 0` is absolute memory, `type > 0` an offset from
base register number `type`.  `end_` models the field `end` (a Lean keyword). -/
structure memrange where
  type : Int
  start : Int
  end_ : Int
deriving DecidableEq, Repr

/-- struct collection_list: an 8-byte register mask plus the memrange list.
`regs_mask` holds the byte values `regs_mask[0] .. regs_mask[7]`. -/
structure collection_list where
  regs_mask : List Nat
  list : List memrange
deriving DecidableEq, Repr

/-- memrange_cmp: order by type, then by start; type-0 starts are compared
after a `(bfd_vma)` (unsigned) cast, other starts as signed values. -/
def memrange_cmp (a b : memrange) : Int :=
  if a.type < b.type then -1
  else if a.type > b.type then 1
  else if a.type = 0 then
    if vma_unsigned a.start < vma_unsigned b.start then -1
    else if vma_unsigned a.start > vma_unsigned b.start then 1
    else 0
  else
    if a.start < b.start then -1
    else if a.start > b.start then 1
    else 0

/-- The "a sorts no later than b" relation induced by memrange_cmp. -/
def memrange_le (a b : memrange) : Bool := memrange_cmp a b ≤ 0

/-- Insert into a list sorted by memrange_le. -/
def mr_insert (x : memrange) : List memrange → List memrange
  | [] => [x]
  | y :: ys => if memrange_le x y then x :: y :: ys else y :: mr_insert x ys

/-- Model of the `qsort (list, n, sizeof, memrange_cmp)` call: produces a
permutation of the input ordered by memrange_cmp (tie order in qsort is
unspecified; insertion sort realizes one admissible ordering, and the merge
invariant proved below holds for every input order). -/
def mr_sort : List memrange → List memrange
  | [] => []
  | x :: xs => mr_insert x (mr_sort xs)

/-- The linear merge pass of memrange_sortmerge: `a` is the record at the
write cursor `list[a]`, the list argumet is the remaining `list[b..]`.  Two
records of equal type merge when `list[b].start - list[a].end <= M`, where
`M` stands for the target constant MAX_REGISTER_VIRTUAL_SIZE. -/
def memrange_merge (M : Int) (a : memrange) : List memrange → List memrange
  | [] => [a]
  | b :: rest =>
    if a.type = b.type ∧ b.start - a.end_ ≤ M then
      memrange_merge M { a with end_ := b.end_ } rest
    else
      a :: memrange_merge M b rest

/-- memrange_sortmerge: qsort by memrange_cmp, then (when the list is
non-empty) the single merge pass. -/
def memrange_sortmerge (M : Int) (l : List memrange) : List memrange :=
  match mr_sort l with
  | [] => []
  | a :: rest => memrange_merge M a rest

/-- Spec predicate: every adjacent pair differs in kind or is separated by a
gap strictly greater than M. -/
def adjacent_ok (M : Int) : List memrange → Bool
  | a :: b :: rest =>
    (decide (a.type ≠ b.type) || decide (M < b.start - a.end_)) &&
      adjacent_ok M (b :: rest)
  | _ => true

lemma memrange_merge_head (M : Int) (a : memrange) (l : List memrange) :
    ∃ e tl, memrange_merge M a l = ⟨a.type, a.start, e⟩ :: tl := by
  induction l generalizing a with
  | nil => exact ⟨a.end_, [], rfl⟩
  | cons b rest ih =>
    by_cases h : a.type = b.type ∧ b.start - a.end_ ≤ M
    · obtain ⟨e, tl, he⟩ := ih { a with end_ := b.end_ }
      exact ⟨e, tl, by simpa [memrange_merge, h] using he⟩
    · exact ⟨a.end_, memrange_merge M b rest, by rw [memrange_merge, if_neg h]⟩

lemma adjacent_ok_merge (M : Int) (a : memrange) (l : List memrange) :
    adjacent_ok M (memrange_merge M a l) = true := by
  induction l generalizing a with
  | nil => rfl
  | cons b rest ih =>
    by_cases h : a.type = b.type ∧ b.start - a.end_ ≤ M
    · simpa [memrange_merge, h] using ih { a with end_ := b.end_ }
    · obtain ⟨e, tl, he⟩ := memrange_merge_head M b rest
      have hb := ih b
      rw [memrange_merge, if_neg h, he]
      rw [he] at hb
      simp only [adjacent_ok, hb, Bool.and_true]
      rcases not_and_or.mp h with h1 | h1
      · simp [h1]
      · simp [lt_of_not_le h1]

/-- add_register: `error` when `regno > 8 * sizeof (regs_mask)` (= 64),
otherwise `regs_mask[regno / 8] |= 1 << (regno % 8)`.  For `regno = 64` the
C check passes and the store hits `regs_mask[8]`, one byte past the 8-byte
array (it lands in the adjacent struct field); the mask bytes themselves are
unchanged, which `List.set` out of range models. -/
def add_register (c : collection_list) (regno : Nat) : Except Unit collection_list :=
  if regno > 8 * 8 then .error ()
  else
    let b := c.regs_mask.getD (regno / 8) 0 ||| (1 <<< (regno % 8))
    .ok { c with regs_mask := c.regs_mask.set (regno / 8) b }

/-- add_memrange: append `(type, base, base + len)`, then (for `type ≠ 0`)
collect the base register.  The C passes the `int type` to add_register's
`unsigned long regno` parameter, an unsigned conversion. -/
def add_memrange (c : collection_list) (type base : Int) (len : Nat) :
    Except Unit collection_list :=
  let c1 : collection_list :=
    { c with list := c.list ++ [⟨type, base, base + (len : Int)⟩] }
  if type ≠ 0 then add_register c1 (vma_unsigned type).toNat else .ok c1

/-- clear_collection_list: zero the mask, truncate the range list. -/
def clear_collection_list (c : collection_list) : collection_list :=
  { c with regs_mask := List.replicate 8 0, list := [] }

/-- The static scratch lists start with a zeroed mask and no ranges. -/
def initial_collection : collection_list := ⟨List.replicate 8 0, []⟩

/-- Bit `r` of the register mask: `regs_mask[r / 8] & (1 << (r % 8))`,
reading 0 outside the 8-byte array. -/
def mask_bit (mask : List Nat) (r : Nat) : Bool :=
  (mask.getD (r / 8) 0).testBit (r % 8)

/-- The collection-list operations reachable from user commands. -/
inductive cl_op where
  | clear : cl_op
  | addreg : Nat → cl_op
  | addmem : Int → Int → Nat → cl_op
  | sortmerge : Int → cl_op

def cl_step (c : collection_list) : cl_op → Except Unit collection_list
  | .clear => .ok (clear_collection_list c)
  | .addreg r => add_register c r
  | .addmem t b l => add_memrange c t b l
  | .sortmerge M => .ok { c with list := memrange_sortmerge M c.list }

def cl_run (ops : List cl_op) : Except Unit collection_list :=
  ops.foldlM cl_step initial_collection

/-- C1: after memrange_sortmerge, adjacent records differ in kind or are
separated by a gap strictly greater than MAX_REGISTER_VIRTUAL_SIZE (`M`,
a positive target constant kept as a parameter); a gap of exactly `M`
between two records of equal kind merges them into one record, and a gap of
`M + 1` leaves them separate. -/
theorem sortmerge_adjacent_and_boundary (M : Int) (hM : 0 ≤ M) :
    (∀ l, adjacent_ok M (memrange_sortmerge M l) = true) ∧
    memrange_sortmerge M [⟨1, 0, 10⟩, ⟨1, 10 + M, 20 + M⟩] = [⟨1, 0, 20 + M⟩] ∧
    memrange_sortmerge M [⟨1, 0, 10⟩, ⟨1, 11 + M, 21 + M⟩] =
      [⟨1, 0, 10⟩, ⟨1, 11 + M, 21 + M⟩] := by
  refine ⟨?_, ?_, ?_⟩
  · intro l
    cases h : mr_sort l with
    | nil =>
      unfold memrange_sortmerge
      rw [h]
      rfl
    | cons a rest =>
      unfold memrange_sortmerge
      rw [h]
      exact adjacent_ok_merge M a rest
  · have hle : memrange_le ⟨1, 0, 10⟩ ⟨1, 10 + M, 20 + M⟩ = true := by
      have h1 : (0 : Int) < 10 + M := by omega
      simp [memrange_le, memrange_cmp, h1]
    have hm : (10 + M : Int) - 10 ≤ M := by omega
    simp [memrange_sortmerge, mr_sort, mr_insert, hle, memrange_merge, hm]
  · have hle : memrange_le ⟨1, 0, 10⟩ ⟨1, 11 + M, 21 + M⟩ = true := by
      have h1 : (0 : Int) < 11 + M := by omega
      simp [memrange_le, memrange_cmp, h1]
    have hm : ¬ ((11 + M : Int) - 10 ≤ M) := by omega
    simp [memrange_sortmerge, mr_sort, mr_insert, hle, memrange_merge, hm]

theorem sortmerge_adjacent_and_boundary_witness :
    (0 : Int) ≤ 8 ∧
    adjacent_ok 8 (memrange_sortmerge 8 [⟨0, 100, 104⟩, ⟨1, -4, 0⟩, ⟨0, 0, 2⟩]) = true ∧
    memrange_sortmerge 8 [⟨1, 0, 10⟩, ⟨1, 18, 28⟩] = [⟨1, 0, 28⟩] :=
  ⟨by decide,
   (sortmerge_adjacent_and_boundary 8 (by decide)).1 [⟨0, 100, 104⟩, ⟨1, -4, 0⟩, ⟨0, 0, 2⟩],
   by
     have h := (sortmerge_adjacent_and_boundary 8 (by decide)).2.1
     norm_num at h
     exact h⟩

/-- C10: memrange_cmp orders records first by kind; within kind 0 the start
fields are compared as unsigned (`(bfd_vma)` cast) values, within kind > 0
as signed values, so a negative start sorts before a positive one only in
the register-relative classes. -/
theorem memrange_cmp_classes :
    (∀ a b : memrange, a.type < b.type → memrange_cmp a b = -1) ∧
    (∀ a b : memrange, b.type < a.type → memrange_cmp a b = 1) ∧
    (∀ a b : memrange, a.type = b.type → a.type ≠ 0 →
       (memrange_cmp a b = -1 ↔ a.start < b.start)) ∧
    (∀ a b : memrange, a.type = b.type → a.type = 0 →
       (memrange_cmp a b = -1 ↔ vma_unsigned a.start < vma_unsigned b.start)) ∧
    (∀ a b : memrange, a.type = b.type → 0 < a.type →
       a.start < 0 → 0 ≤ b.start → memrange_cmp a b = -1) ∧
    (∀ a b : memrange, a.type = 0 → b.type = 0 →
       -2147483648 ≤ a.start → a.start < 0 →
       0 ≤ b.start → b.start < 2147483648 →
       memrange_cmp a b = 1) := by
  refine ⟨?_, ?_, ?_, ?_, ?_, ?_⟩
  · intro a b h
    simp [memrange_cmp, h]
  · intro a b h
    simp [memrange_cmp, h, lt_asymm h]
  · intro a b h h0
    simp only [memrange_cmp]
    rw [if_neg (by omega), if_neg (by omega), if_neg h0]
    split_ifs with g1 g2 <;> simp [g1]
  · intro a b h h0
    simp only [memrange_cmp]
    rw [if_neg (by omega), if_neg (by omega), if_pos h0]
    split_ifs with g1 g2 <;> simp [g1]
  · intro a b h h0 ha hb
    have h1 : ¬ (a.type < b.type) := by omega
    have h2 : ¬ (a.type > b.type) := by omega
    have h3 : ¬ (a.type = 0) := by omega
    have h4 : a.start < b.start := by omega
    simp [memrange_cmp, h1, h2, h3, h4]
  · intro a b h0a h0b ha1 ha2 hb1 hb2
    have h3 : ¬ (vma_unsigned a.start < vma_unsigned b.start) := by
      unfold vma_unsigned
      omega
    have h4 : vma_unsigned a.start > vma_unsigned b.start := by
      unfold vma_unsigned
      omega
    simp [memrange_cmp, h0a, h0b, h3, h4]

theorem memrange_cmp_classes_witness :
    memrange_cmp ⟨2, -4, 0⟩ ⟨2, 4, 8⟩ = -1 ∧
    memrange_cmp ⟨0, -4, 0⟩ ⟨0, 4, 8⟩ = 1 ∧
    memrange_cmp ⟨0, 9, 10⟩ ⟨2, -5, 5⟩ = -1 :=
  ⟨memrange_cmp_classes.2.2.2.2.1 ⟨2, -4, 0⟩ ⟨2, 4, 8⟩ rfl (by decide) (by decide) (by decide),
   memrange_cmp_classes.2.2.2.2.2 ⟨0, -4, 0⟩ ⟨0, 4, 8⟩ rfl rfl
     (by decide) (by decide) (by decide) (by decide),
   memrange_cmp_classes.1 ⟨0, 9, 10⟩ ⟨2, -5, 5⟩ (by decide)⟩

/-- C3 (falsified by the code): the bound check in add_register is
`regno > 64`, not `>=`, so `regno = 64` — the bitmap capacity — does NOT
fail: the store goes one byte past the 8-byte mask and the mask is left
unchanged.  `regno = 63` succeeds and sets bit 63; only `regno = 65` and
above error. -/
theorem add_register_capacity_eval :
    add_register initial_collection 64 = .ok initial_collection ∧
    add_register initial_collection 65 = .error () ∧
    add_register initial_collection 63 = .ok ⟨[0, 0, 0, 0, 0, 0, 0, 128], []⟩ ∧
    mask_bit [0, 0, 0, 0, 0, 0, 0, 128] 63 = true :=
  ⟨rfl, rfl, rfl, rfl⟩

/-- C4 (falsified by the code): the reachable state after
`clear; add_memrange (kind 64)` holds a memrange with kind 64 while no bit
of the 8-byte mask is set — add_register 64 passes its bound check and its
store misses the mask entirely. -/
theorem add_memrange_kind64_eval :
    cl_run [.clear, .addmem 64 0 4] = .ok ⟨List.replicate 8 0, [⟨64, 0, 4⟩]⟩ ∧
    mask_bit (List.replicate 8 0) 64 = false :=
  ⟨rfl, rfl⟩

/-- The trimming scan `for (i = sizeof(regs_mask) - 1; i > 0; i--)
if (list->regs_mask[i] != 0) break;`, started at index 7: the index at
which the loop stops. -/
def high_nonzero_scan (mask : List Nat) : Nat → Nat
  | 0 => 0
  | i + 1 => if mask.getD (i + 1) 0 ≠ 0 then i + 1 else high_nonzero_scan mask i

/-- The emission loop `for (; i >= 0; i--) sprintf (end, "%02X",
list->regs_mask[i]);`. -/
def emit_mask_desc (mask : List Nat) : Nat → List Char
  | 0 => hex2 (mask.getD 0 0)
  | i + 1 => hex2 (mask.getD (i + 1) 0) ++ emit_mask_desc mask i

/-- One `sprintf (end, "M%X,%X,%X", type, start, end - start)` record. -/
def memrange_chars (m : memrange) : List Char :=
  'M' :: (hex_vma m.type ++ ',' :: (hex_vma m.start ++ ',' :: hex_vma (m.end_ - m.start)))

/-- The memrange emission loop of stringify_collection_list. -/
def memranges_chars : List memrange → List Char
  | [] => []
  | m :: rest => memrange_chars m ++ memranges_chars rest

/-- stringify_collection_list: an `R` part holding the mask bytes from the
stop index of the trimming scan down to byte 0 (emitted only when the byte
at the stop index is nonzero), then one `M` record per memrange; returns
NULL (`none`) exactly when nothing was emitted (`end == string`). -/
def stringify_collection_list (c : collection_list) : Option (List Char) :=
  let i := high_nonzero_scan c.regs_mask 7
  let rpart : List Char :=
    if c.regs_mask.getD i 0 ≠ 0 then 'R' :: emit_mask_desc c.regs_mask i else []
  let mpart : List Char := memranges_chars c.list
  if rpart ++ mpart = [] then none else some (rpart ++ mpart)

/-- Two uppercase hex digits per byte, in the order given. -/
def hex_bytes_desc : List Nat → List Char
  | [] => []
  | b :: rest => hex2 b ++ hex_bytes_desc rest

/-- The claim's description of stringify: nothing when the bitmap is
all-zero and the memrange list is empty; otherwise, when the bitmap is
nonzero, `R` followed by the bitmap bytes in descending byte index, two hex
digits per byte, with the leading all-zero high bytes trimmed, then for
each memrange `M<kind_hex>,<start_hex>,<len_hex>` with `len = end - start`,
all numbers unprefixed hex. -/
def stringify_spec (c : collection_list) : Option (List Char) :=
  if c.regs_mask.all (· = 0) ∧ c.list = [] then none
  else
    let rpart : List Char :=
      if c.regs_mask.all (· = 0) then []
      else 'R' :: hex_bytes_desc ((c.regs_mask.reverse).dropWhile (· = 0))
    some (rpart ++ memranges_chars c.list)

lemma list_length_eight {α : Type} (l : List α) (h : l.length = 8) :
    ∃ b0 b1 b2 b3 b4 b5 b6 b7, l = [b0, b1, b2, b3, b4, b5, b6, b7] := by
  rcases l with _ | ⟨b0, _ | ⟨b1, _ | ⟨b2, _ | ⟨b3, _ | ⟨b4, _ | ⟨b5, _ | ⟨b6, _ | ⟨b7, rest⟩⟩⟩⟩⟩⟩⟩⟩ <;>
      simp only [List.length_nil, List.length_cons] at h <;> try omega
  have hrest : rest = [] := List.eq_nil_of_length_eq_zero (by omega)
  subst hrest
  exact ⟨b0, b1, b2, b3, b4, b5, b6, b7, rfl⟩

lemma memranges_chars_eq_nil (l : List memrange) :
    memranges_chars l = [] ↔ l = [] := by
  cases l with
  | nil => simp [memranges_chars]
  | cons a t => simp [memranges_chars, memrange_chars]

/-- C2: stringify_collection_list matches the spec's description of the
wire tail for every collection list with its 8-byte mask. -/
theorem stringify_collection_list_eq_spec (c : collection_list)
    (h : c.regs_mask.length = 8) :
    stringify_collection_list c = stringify_spec c := by
  obtain ⟨m, l⟩ := c
  obtain ⟨b0, b1, b2, b3, b4, b5, b6, b7, rfl⟩ := list_length_eight m h
  by_cases h7 : b7 = 0
  · subst h7
    by_cases h6 : b6 = 0
    · subst h6
      by_cases h5 : b5 = 0
      · subst h5
        by_cases h4 : b4 = 0
        · subst h4
          by_cases h3 : b3 = 0
          · subst h3
            by_cases h2 : b2 = 0
            · subst h2
              by_cases h1 : b1 = 0
              · subst h1
                by_cases h0 : b0 = 0
                · subst h0
                  cases l with
                  | nil =>
                    simp [stringify_collection_list, stringify_spec,
                          high_nonzero_scan, memranges_chars]
                  | cons a t =>
                    simp [stringify_collection_list, stringify_spec,
                          high_nonzero_scan, memranges_chars, memrange_chars,
                          hex_bytes_desc]
                · simp [stringify_collection_list, stringify_spec,
                        high_nonzero_scan, emit_mask_desc, hex_bytes_desc, h0,
                        memranges_chars_eq_nil]
              · simp [stringify_collection_list, stringify_spec,
                      high_nonzero_scan, emit_mask_desc, hex_bytes_desc, h1,
                      memranges_chars_eq_nil]
            · simp [stringify_collection_list, stringify_spec,
                    high_nonzero_scan, emit_mask_desc, hex_bytes_desc, h2,
                    memranges_chars_eq_nil]
          · simp [stringify_collection_list, stringify_spec,
                  high_nonzero_scan, emit_mask_desc, hex_bytes_desc, h3,
                  memranges_chars_eq_nil]
        · simp [stringify_collection_list, stringify_spec,
                high_nonzero_scan, emit_mask_desc, hex_bytes_desc, h4,
                memranges_chars_eq_nil]
      · simp [stringify_collection_list, stringify_spec,
              high_nonzero_scan, emit_mask_desc, hex_bytes_desc, h5,
              memranges_chars_eq_nil]
    · simp [stringify_collection_list, stringify_spec,
            high_nonzero_scan, emit_mask_desc, hex_bytes_desc, h6,
            memranges_chars_eq_nil]
  · simp [stringify_collection_list, stringify_spec,
          high_nonzero_scan, emit_mask_desc, hex_bytes_desc, h7,
          memranges_chars_eq_nil]

theorem stringify_collection_list_eq_spec_witness :
    (collection_list.mk [3, 0, 0, 0, 0, 0, 16, 0] [⟨0, -4, 4⟩]).regs_mask.length = 8 ∧
    stringify_collection_list ⟨[3, 0, 0, 0, 0, 0, 16, 0], [⟨0, -4, 4⟩]⟩ =
      stringify_spec ⟨[3, 0, 0, 0, 0, 0, 16, 0], [⟨0, -4, 4⟩]⟩ ∧
    stringify_collection_list ⟨[3, 0, 0, 0, 0, 0, 16, 0], [⟨0, -4, 4⟩]⟩ =
      some ("R10000000000003M0,FFFFFFFC,8".data) :=
  ⟨rfl, stringify_collection_list_eq_spec ⟨[3, 0, 0, 0, 0, 0, 16, 0], [⟨0, -4, 4⟩]⟩ rfl,
   rfl⟩

/-- struct tracepoint, the fields the registry operations touch.  `number`
is the C `int` field; creation state per set_raw_tracepoint. -/
structure tracepoint where
  number : Int
  enabled : Bool
  pass_count : Nat
  step_count : Int

/-- The registry globals: the insertion-ordered chain rooted at
`tracepoint_chain` and the `tracepoint_count` counter. -/
structure registry_state where
  chain : List tracepoint
  count : Int

/-- The registry-mutating commands: `trace` (one resolved SAL),
`enable/disable/delete tracepoints <n>` and `passcount <c> [n|all]`. -/
inductive reg_op where
  | create : reg_op
  | enable : Int → reg_op
  | disable : Int → reg_op
  | delete : Int → reg_op
  | passcount : Int → Nat → reg_op
  | pass_all : Nat → reg_op

/-- One registry command.  `create` appends to the end of the chain
(set_raw_tracepoint) and assigns `t->number = ++tracepoint_count`
(trace_command); the other operations find tracepoints by number
(get_tracepoint_by_number / map_args_over_tracepoints) and never touch
`tracepoint_count`, and `delete` unlinks the node. -/
def reg_step (st : registry_state) : reg_op → registry_state
  | .create =>
    { chain := st.chain ++
        [{ number := st.count + 1, enabled := true, pass_count := 0, step_count := 0 }],
      count := st.count + 1 }
  | .enable n =>
    { st with chain := st.chain.map fun t =>
        if t.number = n then { t with enabled := true } else t }
  | .disable n =>
    { st with chain := st.chain.map fun t =>
        if t.number = n then { t with enabled := false } else t }
  | .delete n =>
    { st with chain := st.chain.filter fun t => t.number ≠ n }
  | .passcount n c =>
    { st with chain := st.chain.map fun t =>
        if t.number = n then { t with pass_count := c } else t }
  | .pass_all c =>
    { st with chain := st.chain.map fun t => { t with pass_count := c } }

/-- _initialize_tracepoint: empty chain, `tracepoint_count = 0`. -/
def reg_run (ops : List reg_op) : registry_state :=
  ops.foldl reg_step { chain := [], count := 0 }

/-- The registry invariant: chain order is strictly increasing in `number`,
and `tracepoint_count` bounds every assigned number. -/
def reg_inv (st : registry_state) : Prop :=
  st.chain.Pairwise (fun a b => a.number < b.number) ∧
  ∀ t ∈ st.chain, t.number ≤ st.count

lemma reg_inv_map_number_preserving (st : registry_state)
    (f : tracepoint → tracepoint) (hf : ∀ t, (f t).number = t.number)
    (h : reg_inv st) : reg_inv { st with chain := st.chain.map f } := by
  obtain ⟨h1, h2⟩ := h
  constructor
  · rw [List.pairwise_map]
    refine h1.imp_of_mem ?_
    intro a b _ _ hab
    simpa [hf] using hab
  · intro t ht
    obtain ⟨u, hu, rfl⟩ := List.mem_map.mp ht
    simpa [hf] using h2 u hu

lemma reg_inv_step (st : registry_state) (op : reg_op) (h : reg_inv st) :
    reg_inv (reg_step st op) := by
  obtain ⟨h1, h2⟩ := h
  cases op with
  | create =>
    simp only [reg_step]
    constructor
    · rw [List.pairwise_append]
      refine ⟨h1, List.pairwise_singleton _ _, ?_⟩
      intro a ha b hb
      rw [List.mem_singleton] at hb
      subst hb
      have := h2 a ha
      simp only
      omega
    · intro t ht
      rw [List.mem_append, List.mem_singleton] at ht
      rcases ht with ht | rfl
      · have := h2 t ht
        simp only
        omega
      · simp
  | enable n =>
    exact reg_inv_map_number_preserving st _ (fun t => by split <;> rfl) ⟨h1, h2⟩
  | disable n =>
    exact reg_inv_map_number_preserving st _ (fun t => by split <;> rfl) ⟨h1, h2⟩
  | delete n =>
    exact ⟨h1.sublist (List.filter_sublist _),
           fun t ht => h2 t (List.mem_of_mem_filter ht)⟩
  | passcount n c =>
    exact reg_inv_map_number_preserving st _ (fun t => by split <;> rfl) ⟨h1, h2⟩
  | pass_all c =>
    exact reg_inv_map_number_preserving st _ (fun t => rfl) ⟨h1, h2⟩

lemma reg_inv_foldl (ops : List reg_op) :
    ∀ st, reg_inv st → reg_inv (List.foldl reg_step st ops) := by
  induction ops with
  | nil => exact fun st h => h
  | cons op rest ih => exact fun st h => ih _ (reg_inv_step st op h)

/-- C7: after any sequence of registry operations the chain is strictly
increasing in tracepoint number, every assigned number is bounded by
`tracepoint_count`, and no operation ever decreases `tracepoint_count`
(so numbers are never reused within a session). -/
theorem registry_numbering_invariant :
    (∀ ops, reg_inv (reg_run ops)) ∧
    (∀ (st : registry_state) (op : reg_op), st.count ≤ (reg_step st op).count) := by
  constructor
  · intro ops
    simp only [reg_run]
    refine reg_inv_foldl ops _ ?_
    refine ⟨List.Pairwise.nil, ?_⟩
    intro t ht
    simp at ht
  · intro st op
    cases op <;> simp [reg_step]

/-- The result classification of validate_actionline. -/
inductive actionline_type where
  | BADLINE : actionline_type
  | GENERIC : actionline_type
  | END : actionline_type
  | STEPPING : actionline_type
deriving DecidableEq, Repr

/-- `0 == strncasecmp (p, kw, n)`: the first `n` characters match case
insensitively (a NUL ending `p` early is a mismatch, which `take` models
by producing a shorter list). -/
def strncasecmp_eq (p kw : List Char) (n : Nat) : Bool :=
  (p.take n).map Char.toLower == (kw.take n).map Char.toLower

/-- Value of a character as a digit (strtol accepts letters of either
case). -/
def digit_val (c : Char) : Option Nat :=
  if '0' ≤ c ∧ c ≤ '9' then some (c.toNat - 48)
  else if 'a' ≤ c ∧ c ≤ 'z' then some (c.toNat - 87)
  else if 'A' ≤ c ∧ c ≤ 'Z' then some (c.toNat - 55)
  else none

/-- Longest digit prefix in the given base, with the accumulated value. -/
def take_digits (base : Nat) : List Char → Nat → Nat × List Char
  | [], acc => (acc, [])
  | c :: rest, acc =>
    match digit_val c with
    | some d =>
      if d < base then take_digits base rest (acc * base + d) else (acc, c :: rest)
    | none => (acc, c :: rest)

def starts_digit (base : Nat) (s : List Char) : Bool :=
  match s with
  | c :: _ =>
    match digit_val c with
    | some d => decide (d < base)
    | none => false
  | [] => false

/-- Attach the sign parsed by strtol. -/
def strtol_signed (neg : Bool) (p : Nat × List Char) : Int × List Char :=
  (if neg then -(p.1 : Int) else (p.1 : Int), p.2)

/-- `strtol (p, &p, 0)`: skip whitespace, optional sign, then a `0x` hex,
`0` octal or decimal number; when no digits can be consumed the value is 0
and the end pointer is the original `p`.  (Overflow clamping to LONG_MAX is
not modelled; the step counts involved are small.) -/
def strtol0 (s : List Char) : Int × List Char :=
  let s1 := s.dropWhile is_space
  let signed : Bool × List Char :=
    match s1 with
    | '-' :: r => (true, r)
    | '+' :: r => (false, r)
    | _ => (false, s1)
  let neg := signed.1
  match signed.2 with
  | '0' :: 'x' :: r =>
    if starts_digit 16 r then strtol_signed neg (take_digits 16 r 0)
    else strtol_signed neg (0, 'x' :: r)
  | '0' :: 'X' :: r =>
    if starts_digit 16 r then strtol_signed neg (take_digits 16 r 0)
    else strtol_signed neg (0, 'X' :: r)
  | '0' :: r => strtol_signed neg (take_digits 8 r 0)
  | r => if starts_digit 10 r then strtol_signed neg (take_digits 10 r 0) else (0, s)

def kw_collect : List Char := "collect".data

def kw_while_stepping : List Char := "while-stepping".data

def kw_end : List Char := "end".data

/-- validate_actionline on one line, returning the classification and the
resulting `t->step_count`.  The `collect` item walk validates symbols and
expressions through the external parser (parse_exp_1 /
parse_and_eval_memrange); `collect_check` stands for that walk, which never
touches `t->step_count`.  Everything else follows the C dispatch: leading
blanks stripped; empty line is BADLINE; `while-stepping` stores
`strtol (p, &p, 0)` into `t->step_count` BEFORE testing it for zero, and
stores -1 when no argument is present; `end` matches on 3 characters;
anything else warns and is BADLINE. -/
def validate_actionline (collect_check : List Char → actionline_type)
    (line : List Char) (step_count : Int) : actionline_type × Int :=
  let p := line.dropWhile is_space
  if p = [] then (.BADLINE, step_count)
  else if strncasecmp_eq p kw_collect 7 then
    (collect_check (p.drop 7), step_count)
  else if strncasecmp_eq p kw_while_stepping 14 then
    let q := (p.drop 14).dropWhile is_space
    if q ≠ [] then
      let n := (strtol0 q).1
      if n = 0 then (.BADLINE, n) else (.STEPPING, n)
    else (.STEPPING, -1)
  else if strncasecmp_eq p kw_end 3 then (.END, step_count)
  else (.BADLINE, step_count)

def line_while_stepping_zero : List Char := "while-stepping 0".data

/-- C8 (falsified by the code): the line `while-stepping 0` is classified
BADLINE ("command ignored"), yet `t->step_count` has already been
overwritten with 0 — the assignment happens before the zero test — so a
rejected line does mutate the tracepoint.  An empty line, by contrast,
leaves it untouched. -/
theorem validate_actionline_bad_mutates_eval :
    validate_actionline (fun _ => .GENERIC) line_while_stepping_zero 5 =
      (.BADLINE, 0) ∧
    validate_actionline (fun _ => .GENERIC) [] 5 = (.BADLINE, 5) :=
  ⟨rfl, rfl⟩

/-- `while (*p++) ;` — the distance from the start of the buffer to one
past its first NUL. -/
def skip_past_nul : List Char → Nat
  | [] => 1
  | c :: rest => if c = '\x00' then 1 else 1 + skip_past_nul rest

/-- The source_file construction of set_raw_tracepoint.  After
`strcpy (t->source_file, dirname)` the fresh xmalloc'd buffer holds
`dirname ++ NUL ++ junk`, where `junk` are its remaining uninitialized
bytes.  The C then advances `p` PAST the terminator (`while (*p++);`), so
the byte compared against '/' is `junk[0]`, not the last character of
dirname; the two `strcat`s overwrite the NUL with the optional separator
and the filename. -/
def source_file_of (dirname filename junk : List Char) : List Char :=
  let buf := dirname ++ '\x00' :: junk
  let p := skip_past_nul buf
  if buf.getD p '\x00' ≠ '/' then dirname ++ '/' :: filename
  else dirname ++ filename

def dir_no_slash : List Char := "/usr".data

def dir_with_slash : List Char := "/usr/".data

def file_main : List Char := "main.c".data

/-- C9 (falsified by the code): whether the '/' separator is inserted
depends on the uninitialized heap byte after the copied dirname, not on
whether dirname ends in '/': with that byte = '/' a dirname lacking a
slash gets none ("/usrmain.c"), and with any other byte a dirname already
ending in '/' gets a second one ("/usr//main.c"). -/
theorem source_file_junk_eval :
    source_file_of dir_no_slash file_main ['/'] = "/usrmain.c".data ∧
    source_file_of dir_with_slash file_main ['A'] = "/usr//main.c".data ∧
    source_file_of dir_no_slash file_main ['A'] = "/usr/main.c".data :=
  ⟨rfl, rfl, rfl⟩

/-- `strtol (reply, &reply, 16)`: whitespace, optional sign, optional `0x`,
hex digits; value 0 with the pointer unmoved when nothing converts. -/
def strtol16 (s : List Char) : Int × List Char :=
  let s1 := s.dropWhile is_space
  let signed : Bool × List Char :=
    match s1 with
    | '-' :: r => (true, r)
    | '+' :: r => (false, r)
    | _ => (false, s1)
  let neg := signed.1
  match signed.2 with
  | '0' :: 'x' :: r =>
    if starts_digit 16 r then strtol_signed neg (take_digits 16 r 0)
    else strtol_signed neg (0, 'x' :: r)
  | '0' :: 'X' :: r =>
    if starts_digit 16 r then strtol_signed neg (take_digits 16 r 0)
    else strtol_signed neg (0, 'X' :: r)
  | r => if starts_digit 16 r then strtol_signed neg (take_digits 16 r 0) else (0, s)

/-- The reply-scanning loop of finish_tfind_command: `F<hex>` / `T<hex>`
tokens update the frame / tracepoint number (value -1 raises "Target failed
to find requested trace frame"), a final `OK` is skipped, anything else is
"Bogus reply from target".  The first argument is fuel (each step consumes
at least one character, so fuel = length of the reply is enough). -/
def finish_tfind_parse_fuel : Nat → List Char → Int → Int → Except Unit (Int × Int)
  | _, [], fr, tp => .ok (fr, tp)
  | 0, _ :: _, _, _ => .error ()
  | fuel + 1, 'F' :: rest, _, tp =>
    if (strtol16 rest).1 = -1 then .error ()
    else finish_tfind_parse_fuel fuel (strtol16 rest).2 (strtol16 rest).1 tp
  | fuel + 1, 'T' :: rest, fr, _ =>
    if (strtol16 rest).1 = -1 then .error ()
    else finish_tfind_parse_fuel fuel (strtol16 rest).2 fr (strtol16 rest).1
  | _ + 1, 'O' :: rest, fr, tp =>
    match rest with
    | ['K'] => .ok (fr, tp)
    | _ => .error ()
  | _ + 1, _ :: _, _, _ => .error ()

def finish_tfind_parse (reply : List Char) : Except Unit (Int × Int) :=
  finish_tfind_parse_fuel reply.length reply (-1) (-1)

/-- The symbol-table collaborators used by set_traceframe_context:
find_pc_line's line number, and the (possibly absent) function name and
symtab file name at a PC. -/
structure sym_oracle where
  find_line : Int → Int
  find_func : Int → Option (List Char)
  find_file : Int → Option (List Char)

/-- The cursor globals and their shadowing convenience variables:
`traceframe_number` / `$trace_frame`, `tracepoint_number` / `$tracepoint`,
and `$trace_func`, `$trace_file`, `$trace_line`. -/
structure cursor_state where
  traceframe_number : Int
  tracepoint_number : Int
  trace_func : Option (List Char)
  trace_file : Option (List Char)
  trace_line : Int
deriving DecidableEq, Repr

/-- set_traceframe_context: at PC = -1 the three context variables are
nulled (`$trace_line = -1`); otherwise they are recomputed from the symbol
table at that PC. -/
def set_traceframe_context (ora : sym_oracle) (trace_pc : Int)
    (st : cursor_state) : cursor_state :=
  if trace_pc = -1 then
    { st with trace_func := none, trace_file := none, trace_line := -1 }
  else
    { st with trace_line := ora.find_line trace_pc,
              trace_func := ora.find_func trace_pc,
              trace_file := ora.find_file trace_pc }

/-- finish_tfind_command: parse the reply (frame and tracepoint numbers
default to -1 when the stub sends no `F` / `T` token), then
set_traceframe_num, set_tracepoint_num and set_traceframe_context with the
pc of the CURRENT frame (`(get_current_frame ())->pc`, the `curpc`
parameter), not a pc derived from the selected trace frame. -/
def finish_tfind_command (ora : sym_oracle) (curpc : Int) (reply : List Char)
    (st : cursor_state) : Except Unit cursor_state :=
  match finish_tfind_parse reply with
  | .error e => .error e
  | .ok (fr, tp) =>
    .ok (set_traceframe_context ora curpc
      { st with traceframe_number := fr, tracepoint_number := tp })

def reply_fminus1 : List Char := "F-1".data

/-- The `frameno == -1` branch of trace_find_command: the reply must be the
literal `F-1`, then the cursor is fully cleared through
set_traceframe_context (-1). -/
def tfind_end_transition (ora : sym_oracle) (reply : List Char)
    (st : cursor_state) : Except Unit cursor_state :=
  if reply = reply_fminus1 then
    .ok (set_traceframe_context ora (-1)
      { st with traceframe_number := -1, tracepoint_number := -1 })
  else .error ()

/-- The cursor reset ending a successful trace_start_command:
set_traceframe_num (-1); set_tracepoint_num (-1);
set_traceframe_context (-1). -/
def trace_start_cursor_reset (ora : sym_oracle) (st : cursor_state) : cursor_state :=
  set_traceframe_context ora (-1)
    { st with traceframe_number := -1, tracepoint_number := -1 }

/-- The equivalence claimed for the cursor after every transition. -/
def cursor_vars_iff (st : cursor_state) : Prop :=
  st.traceframe_number = -1 ↔
    (st.trace_func = none ∧ st.trace_file = none ∧ st.trace_line = -1)

def fn_main : List Char := "main".data

def fl_ac : List Char := "a.c".data

def ora_fixed : sym_oracle :=
  { find_line := fun _ => 7,
    find_func := fun _ => some fn_main,
    find_file := fun _ => some fl_ac }

def st_any : cursor_state := ⟨3, 2, none, none, 9⟩

def reply_ok : List Char := "OK".data

/-- C5 counterexample: a tfind whose reply is a bare `OK` (the stub refuses
to name the frame) leaves traceframe_number = -1 yet fills $trace_line /
$trace_func / $trace_file from the current PC, so the claimed equivalence
fails after that transition. -/
theorem tfind_bare_ok_breaks_equivalence :
    ¬ (∀ (ora : sym_oracle) (curpc : Int) (reply : List Char)
         (st st' : cursor_state),
         finish_tfind_command ora curpc reply st = .ok st' →
         cursor_vars_iff st') := by
  intro h
  have h1 : finish_tfind_command ora_fixed 100 reply_ok st_any =
      .ok ⟨-1, -1, some fn_main, some fl_ac, 7⟩ := rfl
  have h2 := h ora_fixed 100 reply_ok st_any _ h1
  simp [cursor_vars_iff] at h2

/-- C5 amended: the equivalence holds after the transitions that clear the
cursor (trace_start completion and the end-of-trace tfind), where
traceframe_number = -1 and the three context variables are nulled together;
a finish_tfind transition instead recomputes the context variables from the
current frame PC independently of traceframe_number, so a reply without an
F token (bare OK) yields traceframe_number = -1 with live-PC context and
the equivalence does not survive it. -/
theorem cursor_clear_transitions_amended :
    (∀ (ora : sym_oracle) (st : cursor_state),
       (trace_start_cursor_reset ora st).traceframe_number = -1 ∧
       (trace_start_cursor_reset ora st).trace_func = none ∧
       (trace_start_cursor_reset ora st).trace_file = none ∧
       (trace_start_cursor_reset ora st).trace_line = -1) ∧
    (∀ (ora : sym_oracle) (reply : List Char) (st st' : cursor_state),
       tfind_end_transition ora reply st = .ok st' →
       st'.traceframe_number = -1 ∧ st'.trace_func = none ∧
       st'.trace_file = none ∧ st'.trace_line = -1) ∧
    (∀ (ora : sym_oracle) (curpc : Int) (st st' : cursor_state),
       curpc ≠ -1 →
       finish_tfind_command ora curpc reply_ok st = .ok st' →
       st'.traceframe_number = -1 ∧
       st'.trace_line = ora.find_line curpc ∧
       st'.trace_func = ora.find_func curpc ∧
       st'.trace_file = ora.find_file curpc) := by
  refine ⟨?_, ?_, ?_⟩
  · intro ora st
    simp [trace_start_cursor_reset, set_traceframe_context]
  · intro ora reply st st' h
    rw [tfind_end_transition] at h
    split at h
    · cases h
      simp [set_traceframe_context]
    · cases h
  · intro ora curpc st st' hpc h
    have hp : finish_tfind_parse reply_ok = .ok (-1, -1) := rfl
    rw [finish_tfind_command, hp] at h
    cases h
    simp [set_traceframe_context, hpc]

theorem cursor_clear_transitions_amended_witness :
    (tfind_end_transition ora_fixed reply_fminus1 st_any =
       .ok ⟨-1, -1, none, none, -1⟩) ∧
    ((⟨-1, -1, none, none, -1⟩ : cursor_state).traceframe_number = -1 ∧
     (⟨-1, -1, none, none, -1⟩ : cursor_state).trace_func = none ∧
     (⟨-1, -1, none, none, -1⟩ : cursor_state).trace_file = none ∧
     (⟨-1, -1, none, none, -1⟩ : cursor_state).trace_line = -1) ∧
    ((100 : Int) ≠ -1) ∧
    (finish_tfind_command ora_fixed 100 reply_ok st_any =
       .ok ⟨-1, -1, some fn_main, some fl_ac, 7⟩) ∧
    ((⟨-1, -1, some fn_main, some fl_ac, 7⟩ : cursor_state).traceframe_number = -1 ∧
     (⟨-1, -1, some fn_main, some fl_ac, 7⟩ : cursor_state).trace_line = ora_fixed.find_line 100 ∧
     (⟨-1, -1, some fn_main, some fl_ac, 7⟩ : cursor_state).trace_func = ora_fixed.find_func 100 ∧
     (⟨-1, -1, some fn_main, some fl_ac, 7⟩ : cursor_state).trace_file = ora_fixed.find_file 100) :=
  ⟨rfl,
   cursor_clear_transitions_amended.2.1 ora_fixed reply_fminus1 st_any _ rfl,
   by decide,
   rfl,
   cursor_clear_transitions_amended.2.2 ora_fixed 100 st_any _ (by decide) rfl⟩

/-- One tracepoint's compiled packet ingredients: the sprintf'd
`QTDP:<num>:<addr>:<E|D>:<step>:<pass>` header and the two stringified
action tails from encode_actions (NULL = `none`). -/
abbrev qtdp_item : Type := List Char × Option (List Char) × Option (List Char)

/-- The full body the code tries to place in `char buf[2048]`: header, tdp
tail, and - when a stepping tail exists - the `S` separator plus that
tail. -/
def qtdp_body (header : List Char) (tdp stepping : Option (List Char)) : List Char :=
  header ++ tdp.getD [] ++
    (match stepping with
     | some sa => 'S' :: sa
     | none => [])

/-- The per-tracepoint buffer assembly of trace_start_command, one branch
per combination of present action tails, mirroring the sequential C
control flow: after the header sprintf, a non-NULL tdp tail is guarded by
`strlen (buf) + strlen (tdp_actions) >= sizeof (buf)` ("Actions for
tracepoint %d too complex") before its strcat; then the `"S"` is appended
and the same check guards a non-NULL stepping tail.  On success the
assembled packet reaches putpkt. -/
def build_qtdp (header : List Char) (tdp stepping : Option (List Char)) :
    Except Unit (List Char) :=
  match tdp, stepping with
  | none, none => .ok header
  | none, some sa =>
    if 2048 ≤ (header ++ ['S']).length + sa.length then .error ()
    else .ok (header ++ ['S'] ++ sa)
  | some ta, none =>
    if 2048 ≤ header.length + ta.length then .error ()
    else .ok (header ++ ta)
  | some ta, some sa =>
    if 2048 ≤ header.length + ta.length then .error ()
    else if 2048 ≤ (header ++ ta ++ ['S']).length + sa.length then .error ()
    else .ok (header ++ ta ++ ['S'] ++ sa)

/-- The `ALL_TRACEPOINTS` loop of trace_start_command: assemble and send
one QTDP packet per tracepoint in chain order; the first capacity error
aborts the command, returning only the packets already sent.  The loop
never mutates the tracepoint chain. -/
def tstart_send_qtdps :
    List qtdp_item → List (List Char) → Except (List (List Char)) (List (List Char))
  | [], sent => .ok sent.reverse
  | (h, t, s) :: rest, sent =>
    match build_qtdp h t s with
    | .error _ => .error sent.reverse
    | .ok pkt => tstart_send_qtdps rest (pkt :: sent)

lemma build_qtdp_error_iff (header : List Char) (tdp stepping : Option (List Char))
    (hh : header.length < 2048) :
    build_qtdp header tdp stepping = .error () ↔
      2048 ≤ (qtdp_body header tdp stepping).length := by
  cases tdp with
  | none =>
    cases stepping with
    | none =>
      simp only [build_qtdp, qtdp_body, Option.getD]
      simp only [List.length_append, List.length_nil, List.length_cons]
      constructor
      · intro h
        cases h
      · intro h
        omega
    | some sa =>
      simp only [build_qtdp, qtdp_body, Option.getD]
      split_ifs with h1 <;>
        simp only [List.length_append, List.length_nil, List.length_cons] at h1 ⊢ <;>
        simp <;> omega
  | some ta =>
    cases stepping with
    | none =>
      simp only [build_qtdp, qtdp_body, Option.getD]
      split_ifs with h1 <;>
        simp only [List.length_append, List.length_nil, List.length_cons] at h1 ⊢ <;>
        simp <;> omega
    | some sa =>
      simp only [build_qtdp, qtdp_body, Option.getD]
      split_ifs with h1 h2 <;>
        simp only [List.length_append, List.length_nil, List.length_cons] at h1 ⊢ <;>
        first
          | (simp <;> omega)
          | (simp only [List.length_append, List.length_nil, List.length_cons] at h2 ⊢ <;>
               simp <;> omega)

lemma build_qtdp_ok_eq (header : List Char) (tdp stepping : Option (List Char))
    (out : List Char) (h : build_qtdp header tdp stepping = .ok out) :
    out = qtdp_body header tdp stepping := by
  cases tdp with
  | none =>
    cases stepping with
    | none =>
      simp only [build_qtdp] at h
      cases h
      simp [qtdp_body]
    | some sa =>
      simp only [build_qtdp] at h
      split_ifs at h
      cases h
      simp [qtdp_body]
  | some ta =>
    cases stepping with
    | none =>
      simp only [build_qtdp] at h
      split_ifs at h
      cases h
      simp [qtdp_body]
    | some sa =>
      simp only [build_qtdp] at h
      split_ifs at h
      cases h
      simp [qtdp_body]

lemma tstart_send_stops_at_error (post : List qtdp_item) (x : qtdp_item)
    (hx : build_qtdp x.1 x.2.1 x.2.2 = .error ()) :
    ∀ (pre : List qtdp_item) (sent : List (List Char)),
      (∀ y ∈ pre, build_qtdp y.1 y.2.1 y.2.2 = .ok (qtdp_body y.1 y.2.1 y.2.2)) →
      tstart_send_qtdps (pre ++ x :: post) sent =
        .error (sent.reverse ++ pre.map fun y => qtdp_body y.1 y.2.1 y.2.2) := by
  intro pre
  induction pre with
  | nil =>
    intro sent _
    obtain ⟨xh, xt, xs⟩ := x
    simp only [List.nil_append, tstart_send_qtdps]
    rw [hx]
    simp
  | cons y pre ih =>
    intro sent hpre
    obtain ⟨yh, yt, ys⟩ := y
    have hy := hpre ⟨yh, yt, ys⟩ (by simp)
    simp only [List.cons_append, tstart_send_qtdps, hy]
    simpa using ih (qtdp_body yh yt ys :: sent) (fun z hz => hpre z (by simp [hz]))

/-- C6: a compiled QTDP body that reaches or exceeds the 2048-byte outgoing
buffer makes build_qtdp fail (and every shorter body is assembled exactly);
in the tstart loop the first such tracepoint aborts the command with only
the earlier tracepoints' packets sent — its own packet never goes out, and
the loop leaves the registry untouched. -/
theorem qtdp_capacity_check (header : List Char) (tdp stepping : Option (List Char))
    (hh : header.length < 2048) :
    ((build_qtdp header tdp stepping = .error ()) ↔
       2048 ≤ (qtdp_body header tdp stepping).length) ∧
    (∀ out, build_qtdp header tdp stepping = .ok out →
       out = qtdp_body header tdp stepping) ∧
    (∀ (pre post : List qtdp_item) (x : qtdp_item),
       (∀ y ∈ pre, y.1.length < 2048 ∧ (qtdp_body y.1 y.2.1 y.2.2).length < 2048) →
       x.1.length < 2048 →
       2048 ≤ (qtdp_body x.1 x.2.1 x.2.2).length →
       tstart_send_qtdps (pre ++ x :: post) [] =
         .error (pre.map fun y => qtdp_body y.1 y.2.1 y.2.2)) := by
  refine ⟨build_qtdp_error_iff header tdp stepping hh,
          fun out h => build_qtdp_ok_eq header tdp stepping out h,
          ?_⟩
  intro pre post x hpre hxh hxlen
  have hx : build_qtdp x.1 x.2.1 x.2.2 = .error () :=
    (build_qtdp_error_iff x.1 x.2.1 x.2.2 hxh).mpr hxlen
  have hok : ∀ y ∈ pre, build_qtdp y.1 y.2.1 y.2.2 = .ok (qtdp_body y.1 y.2.1 y.2.2) := by
    intro y hy
    cases hb : build_qtdp y.1 y.2.1 y.2.2 with
    | error e =>
      exfalso
      have hbe : build_qtdp y.1 y.2.1 y.2.2 = .error () := by
        cases e
        exact hb
      have := (build_qtdp_error_iff y.1 y.2.1 y.2.2 (hpre y hy).1).mp hbe
      have h2 := (hpre y hy).2
      omega
    | ok out =>
      rw [build_qtdp_ok_eq y.1 y.2.1 y.2.2 out hb]
  have h := tstart_send_stops_at_error post x hx pre [] hok
  simpa using h

def hdr_example : List Char := "QTDP:1:40:E:0:0".data

def big_tail : List Char := List.replicate 2050 'M'

set_option maxRecDepth 8192 in
theorem qtdp_capacity_check_witness :
    hdr_example.length < 2048 ∧
    (build_qtdp hdr_example (some big_tail) none = .error () ↔
       2048 ≤ (qtdp_body hdr_example (some big_tail) none).length) ∧
    tstart_send_qtdps [(hdr_example, some big_tail, none)] [] = .error [] :=
  ⟨by decide,
   (qtdp_capacity_check hdr_example (some big_tail) none (by decide)).1,
   by
     have h := (qtdp_capacity_check hdr_example (some big_tail) none (by decide)).2.2
       [] [] (hdr_example, some big_tail, none) (by simp) (by decide)
       (by simp [qtdp_body, big_tail, hdr_example])
     simpa using h⟩
